import Mathlib

/-!
# Verification of the neo4j-dbpedia-subgraph-extractor core

A shallow embedding of the extraction pipeline of the
`khaller93/neo4j-dbpedia-subgraph-extractor` repository:

* `src/dbpediasampler/sampling/io.py` — `IndexManager`
  (`add_entry_and_get_index`, `get_index`), `LabelWriter` (`is_present`,
  `write_label`), `StatementWriter` (`add_statement`), and the file-backed
  variants' `__exit__` handlers;
* `src/extractor/extractor.py` — `Extractor.fetch_statements` (skip/limit
  pagination) and `Extractor.fetch_label` / the label step of `run`.

Streams are modelled as the list of rows written to them, in order; the
Python `dict` backing the entity index is modelled as an association list
(only ever extended, never mutated at an existing key, exactly like the
source); exceptions are modelled with `Except`.
-/

namespace DbpediaExtractor

/-- Lookup in the association list modelling the Python `dict`
`IndexManager._entity_map`. -/
def lookupUri : List (String × Nat) → String → Option Nat
  | [], _ => none
  | (k, v) :: rest, u => if k = u then some v else lookupUri rest u

/-- State of an `IndexManager` (src/dbpediasampler/sampling/io.py):
`_last_index`, `_entity_map`, and the rows so far written to the index
stream (`_index_w`) and to the relevant-entities stream
(`_rev_entities_w`). -/
structure IndexManagerState where
  last_index : Nat
  entity_map : List (String × Nat)
  index_rows : List (Nat × String)
  rev_entities_rows : List Nat
deriving DecidableEq, Repr

/-- The state right after `IndexManager.__init__`. -/
def initIndexManager : IndexManagerState :=
  { last_index := 0, entity_map := [], index_rows := [], rev_entities_rows := [] }

/-- `IndexManager.add_entry_and_get_index(uri, relevant)`: if `uri` is not
in `_entity_map`, write the relevant-entities row (only when `relevant`),
write the `(index, uri)` row, record the mapping and bump `_last_index`;
in all cases return the index of `uri`. -/
def add_entry_and_get_index (st : IndexManagerState) (uri : String)
    (relevant : Bool) : IndexManagerState × Nat :=
  match lookupUri st.entity_map uri with
  | some i => (st, i)
  | none =>
      ({ last_index := st.last_index + 1,
         entity_map := (uri, st.last_index) :: st.entity_map,
         index_rows := st.index_rows ++ [(st.last_index, uri)],
         rev_entities_rows :=
           if relevant then st.rev_entities_rows ++ [st.last_index]
           else st.rev_entities_rows },
       st.last_index)

/-- `IndexManager.get_index(uri)`: the index of `uri`, or `none` if the
entity has no index. -/
def get_index (st : IndexManagerState) (uri : String) : Option Nat :=
  lookupUri st.entity_map uri

/-- One `add_entry_and_get_index` call viewed as a state transformer
(discarding the returned index). -/
def resolveStep (st : IndexManagerState) (c : String × Bool) : IndexManagerState :=
  (add_entry_and_get_index st c.1 c.2).1

/-- Run a sequence of `add_entry_and_get_index` calls, given as
`(uri, relevant)` pairs, from the freshly initialised manager. -/
def runCalls (cs : List (String × Bool)) : IndexManagerState :=
  cs.foldl resolveStep initIndexManager

/-- State of a `LabelWriter` (src/dbpediasampler/sampling/io.py):
`_labelled_set` (a set of indices) and the rows written to the label
stream (`_tsv_writer`). -/
structure LabelWriterState where
  labelled_set : List Nat
  label_rows : List (Nat × String × String)
deriving DecidableEq, Repr

/-- The state right after `LabelWriter.__init__`. -/
def initLabelWriter : LabelWriterState :=
  { labelled_set := [], label_rows := [] }

/-- `LabelWriter.is_present(uri)`: raises `ValueError` when the entity has
no index, otherwise reports whether its index is in `_labelled_set`. -/
def is_present (im : IndexManagerState) (lw : LabelWriterState)
    (uri : String) : Except String Bool :=
  match get_index im uri with
  | none => .error "ValueError: entity was not indexed"
  | some i => .ok (lw.labelled_set.contains i)

/-- `LabelWriter.write_label(uri, label, description)`: raises `ValueError`
when the entity has no index; writes the `(index, label, description)` row
and marks the index labelled only when the index is not yet in
`_labelled_set`. -/
def write_label (im : IndexManagerState) (lw : LabelWriterState)
    (uri label description : String) : Except String LabelWriterState :=
  match get_index im uri with
  | none => .error "ValueError: entity was not indexed"
  | some i =>
      if lw.labelled_set.contains i then .ok lw
      else .ok { labelled_set := i :: lw.labelled_set,
                 label_rows := lw.label_rows ++ [(i, label, description)] }

/-- `URIRef(u).n3()` of the external rdflib library: a plain URI is
serialised as the URI between angle brackets. -/
def n3 (u : String) : String := "<" ++ u ++ ">"

/-- The N-Triples line `'%s %s %s .\n' % (...)` built by
`StatementWriter.add_statement`. -/
def ntripleLine (stmt : String × String × String) : String :=
  n3 stmt.1 ++ " " ++ n3 stmt.2.1 ++ " " ++ n3 stmt.2.2 ++ " .\n"

/-- State of a `StatementWriter` (src/dbpediasampler/sampling/io.py): the
rows written to the TSV statement stream and the lines written to the
N-Triples stream. -/
structure StatementWriterState where
  stmt_tsv_rows : List (Nat × Nat × Nat)
  stmt_rdf_lines : List String
deriving DecidableEq, Repr

/-- The state right after `StatementWriter.__init__`. -/
def initStatementWriter : StatementWriterState :=
  { stmt_tsv_rows := [], stmt_rdf_lines := [] }

/-- `StatementWriter.add_statement(stmt)`: resolves subject (relevant),
then predicate (not relevant), then object (relevant) through the index
manager, writes one `(s, p, o)` id row to the TSV stream and one
N-Triples line to the RDF stream. -/
def add_statement (ims : IndexManagerState × StatementWriterState)
    (stmt : String × String × String) : IndexManagerState × StatementWriterState :=
  let r1 := add_entry_and_get_index ims.1 stmt.1 true
  let r2 := add_entry_and_get_index r1.1 stmt.2.1 false
  let r3 := add_entry_and_get_index r2.1 stmt.2.2 true
  (r3.1,
   { stmt_tsv_rows := ims.2.stmt_tsv_rows ++ [(r1.2, r2.2, r3.2)],
     stmt_rdf_lines := ims.2.stmt_rdf_lines ++ [ntripleLine stmt] })

/-- Feed a sequence of statements to `add_statement`, starting from a
fresh index manager and a fresh statement writer. -/
def runStatements (stmts : List (String × String × String)) :
    IndexManagerState × StatementWriterState :=
  stmts.foldl add_statement (initIndexManager, initStatementWriter)

/-- Open/closed status of the five gzip output streams of a run
(`true` = open): entity index, index labels, relevant entities, statement
N-Triples, statement TSV. -/
structure RunStreams where
  ent_index_open : Bool
  index_label_open : Bool
  rev_ent_open : Bool
  stmt_rdf_open : Bool
  stmt_tsv_open : Bool
deriving DecidableEq, Repr

/-- All five streams, opened by `IndexManagerFileIO.__init__` and
`StatementWriterFileIO.__init__` at the start of a run. -/
def openAllStreams : RunStreams :=
  { ent_index_open := true, index_label_open := true, rev_ent_open := true,
    stmt_rdf_open := true, stmt_tsv_open := true }

/-- `IndexManagerFileIO.__exit__`: flushes and closes `_ent_index_w` and
`_rev_ent_w`. (No other stream is touched.) -/
def indexManagerFileIO_exit (s : RunStreams) : RunStreams :=
  { s with ent_index_open := false, rev_ent_open := false }

/-- `StatementWriterFileIO.__exit__`: closes `_stmt_rdf_w` and
`_stmt_tsv_w`. -/
def statementWriterFileIO_exit (s : RunStreams) : RunStreams :=
  { s with stmt_rdf_open := false, stmt_tsv_open := false }

/-- Stream release on any exit path of `run` (normal or exceptional):
the inner `with` block (statement writer) exits first, then the outer one
(index manager). -/
def runExitStreams (s : RunStreams) : RunStreams :=
  indexManagerFileIO_exit (statementWriterFileIO_exit s)

/-- The page size constant `LOAD_LIMIT` of src/extractor/extractor.py. -/
def LOAD_LIMIT : Nat := 1000000

/-- `self._session.run(self.statement_query(), skip=skip, limit=LOAD_LIMIT)`
over an ordered source of rows: the `skip`/`limit` window of the source. -/
def queryPage {α : Type} (src : List α) (skip : Nat) : List α :=
  (src.drop skip).take LOAD_LIMIT

/-- The page loop of `Extractor.fetch_statements`, starting at a given
`skip`: probe the page (`result.peek()`); if it has no rows, stop;
otherwise yield the page's rows and continue with `skip + LOAD_LIMIT`. -/
def fetchPagesAux {α : Type} (src : List α) (skip : Nat) : List (List α) :=
  if h : (queryPage src skip).head?.isNone then []
  else queryPage src skip :: fetchPagesAux src (skip + LOAD_LIMIT)
termination_by src.length - skip
decreasing_by
  have hd : src.drop skip ≠ [] := by
    intro hc
    simp [queryPage, hc] at h
  have hlt : skip < src.length := by
    by_contra hge
    exact hd (List.drop_eq_nil_of_le (Nat.le_of_not_lt hge))
  have hL : 0 < LOAD_LIMIT := by decide
  omega

/-- `Extractor.fetch_statements`: the concatenation of all fetched pages,
in order. -/
def fetch_statements {α : Type} (src : List α) : List α :=
  (fetchPagesAux src 0).flatten

/-- A record produced by the label lookup query, with the named fields
`label`, `description`, `depiction` (external interface of the graph
database session). -/
structure LabelRecord where
  label : String
  description : String
  depiction : String
deriving DecidableEq, Repr

/-- `Extractor.fetch_label` (src/extractor/extractor.py; identical in
src/dbpediasampler/sampling/sampler.py): `record = result.single()` yields
the lookup's single record, or `None` when the lookup produces no row
(external neo4j driver), and `record['label']` on a missing record raises;
with a record, returns `(label, description, depiction)`. -/
def fetch_label (lookupRows : List LabelRecord) :
    Except String (String × String × String) :=
  match lookupRows.head? with
  | none => .error "TypeError: NoneType object is not subscriptable"
  | some r => .ok (r.label, r.description, r.depiction)

/-- State of the extractor's label writer: labelled indices and rows
`(index, label, description, depiction)` written to the label stream. -/
structure ExtLabelWriterState where
  labelled_set : List Nat
  label_rows : List (Nat × String × String × String)
deriving DecidableEq, Repr

/-- The extractor label writer's state right after construction. -/
def initExtLabelWriter : ExtLabelWriterState :=
  { labelled_set := [], label_rows := [] }

/-- Modelled from the spec: `extractor/io.py` (imported by
src/extractor/extractor.py as `extractor.io`) is not under src/. Per §4.2,
`is_present` reports whether a label has been written for the entity's
index; per §7(e) a URI never indexed is an error, as in the
src/dbpediasampler/sampling/io.py `LabelWriter`. -/
def ext_is_present (im : IndexManagerState) (lw : ExtLabelWriterState)
    (uri : String) : Except String Bool :=
  match get_index im uri with
  | none => .error "ValueError: entity was not indexed"
  | some i => .ok (lw.labelled_set.contains i)

/-- Modelled from the spec: `extractor/io.py` is not under src/. Per §4.2,
`writeLabel(id, label, description, depiction)` appends the record only if
no record has yet been written for the id, otherwise it is a silent
no-op. -/
def ext_write_label (im : IndexManagerState) (lw : ExtLabelWriterState)
    (uri label description depiction : String) : Except String ExtLabelWriterState :=
  match get_index im uri with
  | none => .error "ValueError: entity was not indexed"
  | some i =>
      if lw.labelled_set.contains i then .ok lw
      else .ok { labelled_set := i :: lw.labelled_set,
                 label_rows := lw.label_rows ++ [(i, label, description, depiction)] }

/-- The per-entity label step of `Extractor.run` for one endpoint `ent` of
a statement: `if not lw.is_present(ent): label, desc, thumb =
self.fetch_label(ent); lw.write_label(ent, label, desc, thumb)`.
`lookupRows` is the row set the label query returns for `ent`; any raised
exception propagates and fails the run. -/
def driver_label_step (im : IndexManagerState) (lw : ExtLabelWriterState)
    (ent : String) (lookupRows : List LabelRecord) :
    Except String ExtLabelWriterState :=
  match ext_is_present im lw ent with
  | .error e => .error e
  | .ok true => .ok lw
  | .ok false =>
      match fetch_label lookupRows with
      | .error e => .error e
      | .ok v => ext_write_label im lw ent v.1 v.2.1 v.2.2

/-!
## Abstractions used to state the claims

`fsr cs` is the list of `(uri, relevant)` pairs of the *first* call for
each distinct URI, in first-sight order. The state of `IndexManager` after
a call sequence is characterised entirely by it.
-/

/-- Append the call to the first-sight list when its URI is new. -/
def fsrStep (l : List (String × Bool)) (c : String × Bool) :
    List (String × Bool) :=
  if c.1 ∈ l.map Prod.fst then l else l ++ [c]

/-- First-sight calls of a call sequence: one entry per distinct URI,
carrying the `relevant` flag of the URI's first call, in first-sight
order. -/
def fsr (cs : List (String × Bool)) : List (String × Bool) :=
  cs.foldl fsrStep []

/-- The distinct URIs of a call sequence in first-sight order. -/
def seenUris (cs : List (String × Bool)) : List String :=
  (fsr cs).map Prod.fst

/-- The number of distinct URIs in a call sequence. -/
def distinctCount (cs : List (String × Bool)) : Nat :=
  (seenUris cs).length

/-- Index of the first occurrence of `u` in a list, if any. -/
def firstIdx : List String → String → Option Nat
  | [], _ => none
  | a :: t, u => if a = u then some 0 else (firstIdx t u).map (· + 1)

/-- The index rows `(i, uri)` for a list of distinct URIs, numbering from
`n`. -/
def idxRows (n : Nat) : List String → List (Nat × String)
  | [] => []
  | u :: t => (n, u) :: idxRows (n + 1) t

/-- The relevant-entities rows for a first-sight list, numbering from `n`:
the indices whose first call was relevant. -/
def revRows (n : Nat) : List (String × Bool) → List Nat
  | [] => []
  | c :: t => (if c.2 then [n] else []) ++ revRows (n + 1) t

/-- Characterisation of an `IndexManager` state by the first-sight list of
the calls made so far. -/
def IndexAbs (st : IndexManagerState) (l : List (String × Bool)) : Prop :=
  st.last_index = l.length
  ∧ (∀ u, lookupUri st.entity_map u = firstIdx (l.map Prod.fst) u)
  ∧ st.index_rows = idxRows 0 (l.map Prod.fst)
  ∧ st.rev_entities_rows = revRows 0 l

/-- The id row of the TSV statement table matches the statement: each URI
of the statement resolves, in the given index-manager state, to the
corresponding id of the row. -/
def RowMatches (im : IndexManagerState) (s : String × String × String)
    (r : Nat × Nat × Nat) : Prop :=
  get_index im s.1 = some r.1
  ∧ get_index im s.2.1 = some r.2.1
  ∧ get_index im s.2.2 = some r.2.2

/-- The label-writer state right after the first `write_label` for index
`i` with content `(l, d)`. -/
def labelledAfter (lw : LabelWriterState) (i : Nat) (l d : String) :
    LabelWriterState :=
  { labelled_set := i :: lw.labelled_set,
    label_rows := lw.label_rows ++ [(i, l, d)] }

/-!
## Basic lemmas about `add_entry_and_get_index`
-/

theorem add_of_get_index_some {st : IndexManagerState} {u : String} {i : Nat}
    (r : Bool) (h : get_index st u = some i) :
    add_entry_and_get_index st u r = (st, i) := by
  simp [add_entry_and_get_index, get_index] at h ⊢
  simp [h]

theorem get_index_after_add (st : IndexManagerState) (u : String) (r : Bool) :
    get_index ((add_entry_and_get_index st u r).1) u
      = some ((add_entry_and_get_index st u r).2) := by
  unfold add_entry_and_get_index
  cases hl : lookupUri st.entity_map u with
  | none => simp [get_index, lookupUri]
  | some i => simpa [get_index] using hl

theorem get_index_add_of_some {st : IndexManagerState} {u : String} {i : Nat}
    (v : String) (r : Bool) (h : get_index st u = some i) :
    get_index ((add_entry_and_get_index st v r).1) u = some i := by
  unfold add_entry_and_get_index
  cases hl : lookupUri st.entity_map v with
  | none =>
      simp only [get_index, lookupUri]
      have hvu : ¬ v = u := by
        intro he
        rw [he] at hl
        rw [get_index] at h
        rw [h] at hl
        exact Option.noConfusion hl
      simpa [hvu] using h
  | some j => simpa [get_index] using h

theorem get_index_resolveStep_of_some {st : IndexManagerState} {u : String}
    {i : Nat} (c : String × Bool) (h : get_index st u = some i) :
    get_index (resolveStep st c) u = some i :=
  get_index_add_of_some c.1 c.2 h

theorem get_index_foldl_of_some {st : IndexManagerState} {u : String} {i : Nat}
    (cs : List (String × Bool)) (h : get_index st u = some i) :
    get_index (cs.foldl resolveStep st) u = some i := by
  induction cs generalizing st with
  | nil => simpa using h
  | cons c t ih =>
      simpa using ih (get_index_resolveStep_of_some c h)

theorem runCalls_append (cs cs' : List (String × Bool)) :
    runCalls (cs ++ cs') = cs'.foldl resolveStep (runCalls cs) := by
  simp [runCalls, List.foldl_append]

/-!
## Lemmas about the abstraction functions
-/

theorem firstIdx_eq_none_iff (L : List String) (u : String) :
    firstIdx L u = none ↔ u ∉ L := by
  induction L with
  | nil => simp [firstIdx]
  | cons a t ih =>
      by_cases hau : a = u
      · simp [firstIdx, hau]
      · simp [firstIdx, hau, Option.map_eq_none', ih, Ne.symm hau]

theorem firstIdx_lt_length {L : List String} {u : String} {i : Nat}
    (h : firstIdx L u = some i) : i < L.length := by
  induction L generalizing i with
  | nil => exact absurd h (by simp [firstIdx])
  | cons a t ih =>
      by_cases hau : a = u
      · simp [firstIdx, hau] at h
        simp [List.length_cons]
        omega
      · simp [firstIdx, hau, Option.map_eq_some'] at h
        obtain ⟨j, hj, hji⟩ := h
        have := ih hj
        simp [← hji, List.length_cons]
        omega

theorem firstIdx_append_of_some {L : List String} {u : String} {i : Nat}
    (L' : List String) (h : firstIdx L u = some i) :
    firstIdx (L ++ L') u = some i := by
  induction L generalizing i with
  | nil => exact absurd h (by simp [firstIdx])
  | cons a t ih =>
      by_cases hau : a = u
      · simp [firstIdx, hau] at h ⊢
        exact h
      · simp [firstIdx, hau, Option.map_eq_some'] at h ⊢
        obtain ⟨j, hj, hji⟩ := h
        exact ⟨j, ih hj, hji⟩

theorem firstIdx_middle {K₁ : List String} {u : String} (K₂ : List String)
    (h : u ∉ K₁) : firstIdx (K₁ ++ u :: K₂) u = some K₁.length := by
  induction K₁ with
  | nil => simp [firstIdx]
  | cons a t ih =>
      have hau : ¬ a = u := by
        intro he
        exact h (by simp [he])
      have hut : u ∉ t := fun hm => h (by simp [hm])
      simp [firstIdx, hau, ih hut]

theorem firstIdx_getElem_of_nodup {L : List String} (hnd : L.Nodup)
    (i : Nat) (hi : i < L.length) :
    firstIdx L L[i] = some i := by
  induction L generalizing i with
  | nil => simp at hi
  | cons a t ih =>
      cases i with
      | zero => simp [firstIdx]
      | succ j =>
          have hj : j < t.length := by simpa using hi
          have hmem : t[j] ∈ t := List.getElem_mem hj
          have hne : ¬ a = t[j] := by
            intro he
            exact (List.nodup_cons.mp hnd).1 (by rw [he]; exact hmem)
          have ht : t.Nodup := (List.nodup_cons.mp hnd).2
          simp [firstIdx, List.getElem_cons_succ, hne, ih ht j hj]

theorem idxRows_append (n : Nat) (L L' : List String) :
    idxRows n (L ++ L') = idxRows n L ++ idxRows (n + L.length) L' := by
  induction L generalizing n with
  | nil => simp [idxRows]
  | cons a t ih =>
      simp [idxRows, ih (n + 1)]
      have : n + 1 + t.length = n + (t.length + 1) := by omega
      rw [this]

theorem idxRows_map_fst (n : Nat) (L : List String) :
    (idxRows n L).map Prod.fst = List.range' n L.length := by
  induction L generalizing n with
  | nil => simp [idxRows]
  | cons a t ih => simp [idxRows, List.range', ih (n + 1)]

theorem idxRows_map_snd (n : Nat) (L : List String) :
    (idxRows n L).map Prod.snd = L := by
  induction L generalizing n with
  | nil => simp [idxRows]
  | cons a t ih => simp [idxRows, ih (n + 1)]

theorem revRows_append (n : Nat) (l l' : List (String × Bool)) :
    revRows n (l ++ l') = revRows n l ++ revRows (n + l.length) l' := by
  induction l generalizing n with
  | nil => simp [revRows]
  | cons c t ih =>
      simp [revRows, ih (n + 1)]
      have he : n + 1 + t.length = n + (t.length + 1) := by omega
      rw [he]

theorem exists_of_mem_revRows {l : List (String × Bool)} {n i : Nat}
    (h : i ∈ revRows n l) :
    ∃ j c, l[j]? = some c ∧ c.2 = true ∧ i = n + j := by
  induction l generalizing n with
  | nil => simp [revRows] at h
  | cons c t ih =>
      rw [revRows, List.mem_append] at h
      rcases h with h | h
      · rcases hc : c.2 with hf | ht
        · rw [hc] at h
          simp at h
        · rw [hc] at h
          simp at h
          exact ⟨0, c, by simp, hc, by omega⟩
      · obtain ⟨j, d, hget, hd, hij⟩ := ih h
        exact ⟨j + 1, d, by simpa using hget, hd, by omega⟩

theorem foldl_fsrStep_extend (cs : List (String × Bool)) :
    ∀ l : List (String × Bool), ∃ t, cs.foldl fsrStep l = l ++ t := by
  induction cs with
  | nil => exact fun l => ⟨[], by simp⟩
  | cons c cs ih =>
      intro l
      rcases ih (fsrStep l c) with ⟨t, ht⟩
      rw [List.foldl_cons, ht]
      unfold fsrStep
      by_cases hc : c.1 ∈ l.map Prod.fst
      · exact ⟨t, by simp [hc]⟩
      · exact ⟨[c] ++ t, by simp [hc]⟩

theorem mem_keys_foldl_fsrStep (cs : List (String × Bool)) :
    ∀ (l : List (String × Bool)) (u : String),
      (u ∈ (cs.foldl fsrStep l).map Prod.fst ↔
        u ∈ l.map Prod.fst ∨ u ∈ cs.map Prod.fst) := by
  induction cs with
  | nil => simp
  | cons c cs ih =>
      intro l u
      rw [List.foldl_cons, ih]
      unfold fsrStep
      by_cases hc : c.1 ∈ l.map Prod.fst
      · simp only [if_pos hc, List.map_cons, List.mem_cons]
        constructor
        · rintro (h | h)
          · exact Or.inl h
          · exact Or.inr (Or.inr h)
        · rintro (h | h | h)
          · exact Or.inl h
          · exact Or.inl (by rw [h]; exact hc)
          · exact Or.inr h
      · simp only [if_neg hc, List.map_append, List.mem_append, List.map_cons,
          List.mem_cons, List.map_nil, List.mem_singleton, List.not_mem_nil,
          or_false]
        constructor
        · rintro ((h | h) | h)
          · exact Or.inl h
          · exact Or.inr (Or.inl h)
          · exact Or.inr (Or.inr h)
        · rintro (h | h | h)
          · exact Or.inl (Or.inl h)
          · exact Or.inl (Or.inr h)
          · exact Or.inr h

theorem mem_seenUris_iff (cs : List (String × Bool)) (u : String) :
    u ∈ seenUris cs ↔ u ∈ cs.map Prod.fst := by
  rw [seenUris, fsr, mem_keys_foldl_fsrStep]
  simp

theorem nodup_keys_foldl_fsrStep (cs : List (String × Bool)) :
    ∀ l : List (String × Bool),
      (l.map Prod.fst).Nodup → ((cs.foldl fsrStep l).map Prod.fst).Nodup := by
  induction cs with
  | nil => exact fun l h => h
  | cons c cs ih =>
      intro l hnd
      rw [List.foldl_cons]
      apply ih
      unfold fsrStep
      by_cases hc : c.1 ∈ l.map Prod.fst
      · simpa [hc] using hnd
      · simp only [if_neg hc, List.map_append]
        exact List.Nodup.append hnd (by simp) (by
          intro a ha hb
          simp at hb
          exact hc (hb ▸ ha))

theorem seenUris_nodup (cs : List (String × Bool)) : (seenUris cs).Nodup :=
  nodup_keys_foldl_fsrStep cs [] (by simp)

theorem fsr_append (cs cs' : List (String × Bool)) :
    fsr (cs ++ cs') = cs'.foldl fsrStep (fsr cs) := by
  simp [fsr, List.foldl_append]

/-!
## The index manager is simulated by the first-sight abstraction
-/

theorem indexAbs_init : IndexAbs initIndexManager [] :=
  ⟨rfl, fun _ => rfl, rfl, rfl⟩

theorem indexAbs_fsrStep {st : IndexManagerState} {l : List (String × Bool)}
    (c : String × Bool) (h : IndexAbs st l) :
    IndexAbs (resolveStep st c) (fsrStep l c) := by
  obtain ⟨hlen, hlook, hidx, hrev⟩ := h
  unfold resolveStep add_entry_and_get_index fsrStep
  cases hl : lookupUri st.entity_map c.1 with
  | some i =>
      have hne : firstIdx (l.map Prod.fst) c.1 ≠ none := by
        rw [← hlook c.1, hl]
        simp
      have hmem : c.1 ∈ l.map Prod.fst := by
        by_contra hm
        exact hne ((firstIdx_eq_none_iff _ _).mpr hm)
      simp only [hl, if_pos hmem]
      exact ⟨hlen, hlook, hidx, hrev⟩
  | none =>
      have hmem : c.1 ∉ l.map Prod.fst := by
        rw [← firstIdx_eq_none_iff, ← hlook c.1]
        exact hl
      simp only [hl, if_neg hmem]
      refine ⟨by simp [hlen], ?_, ?_, ?_⟩
      · intro u
        by_cases huc : c.1 = u
        · subst huc
          have hmid := firstIdx_middle ([] : List String) hmem
          simp only [List.map_append, List.map_cons, List.map_nil]
          rw [hmid]
          simp [lookupUri, hlen]
        · have hl2 := hlook u
          simp only [List.map_append, List.map_cons, List.map_nil]
          simp only [lookupUri, if_neg huc]
          rw [hl2]
          cases hfi : firstIdx (l.map Prod.fst) u with
          | some j => rw [firstIdx_append_of_some [c.1] hfi]
          | none =>
              have hu : u ∉ l.map Prod.fst := (firstIdx_eq_none_iff _ _).mp hfi
              have hu2 : u ∉ l.map Prod.fst ++ [c.1] := by
                intro hm
                rcases List.mem_append.mp hm with hm1 | hm1
                · exact hu hm1
                · exact huc (List.mem_singleton.mp hm1).symm
              rw [(firstIdx_eq_none_iff _ _).mpr hu2]
      · rw [hidx]
        simp only [List.map_append, List.map_cons, List.map_nil, idxRows_append]
        simp [idxRows, hlen]
      · rw [hrev, revRows_append]
        cases hc2 : c.2 <;> simp [revRows, hlen, hc2]

theorem indexAbs_foldl {st : IndexManagerState} {l : List (String × Bool)}
    (cs : List (String × Bool)) (h : IndexAbs st l) :
    IndexAbs (cs.foldl resolveStep st) (cs.foldl fsrStep l) := by
  induction cs generalizing st l with
  | nil => simpa using h
  | cons c t ih =>
      rw [List.foldl_cons, List.foldl_cons]
      exact ih (indexAbs_fsrStep c h)

theorem indexAbs_runCalls (cs : List (String × Bool)) :
    IndexAbs (runCalls cs) (fsr cs) :=
  indexAbs_foldl cs indexAbs_init

theorem get_index_runCalls (cs : List (String × Bool)) (u : String) :
    get_index (runCalls cs) u = firstIdx (seenUris cs) u := by
  have h := (indexAbs_runCalls cs).2.1 u
  rw [get_index, h, seenUris]

/-!
## Lemmas about `StatementWriter`
-/

theorem add_statement_eq (ims : IndexManagerState × StatementWriterState)
    (stmt : String × String × String) :
    add_statement ims stmt =
      ((add_entry_and_get_index
          (add_entry_and_get_index
            (add_entry_and_get_index ims.1 stmt.1 true).1 stmt.2.1 false).1
          stmt.2.2 true).1,
       { stmt_tsv_rows := ims.2.stmt_tsv_rows ++
           [((add_entry_and_get_index ims.1 stmt.1 true).2,
             (add_entry_and_get_index
               (add_entry_and_get_index ims.1 stmt.1 true).1 stmt.2.1 false).2,
             (add_entry_and_get_index
               (add_entry_and_get_index
                 (add_entry_and_get_index ims.1 stmt.1 true).1 stmt.2.1 false).1
               stmt.2.2 true).2)],
         stmt_rdf_lines := ims.2.stmt_rdf_lines ++ [ntripleLine stmt] }) := rfl

theorem get_index_add_statement_of_some {im : IndexManagerState} {u : String}
    {j : Nat} (sw : StatementWriterState) (stmt : String × String × String)
    (h : get_index im u = some j) :
    get_index (add_statement (im, sw) stmt).1 u = some j := by
  rw [add_statement_eq]
  exact get_index_add_of_some _ _ (get_index_add_of_some _ _
    (get_index_add_of_some _ _ h))

theorem runStatements_append (stmts stmts' : List (String × String × String)) :
    runStatements (stmts ++ stmts') = stmts'.foldl add_statement (runStatements stmts) := by
  simp [runStatements, List.foldl_append]

theorem runStatements_rdf_lines (stmts : List (String × String × String)) :
    (runStatements stmts).2.stmt_rdf_lines = stmts.map ntripleLine := by
  induction stmts using List.reverseRecOn with
  | nil => rfl
  | append_singleton l a ih =>
      rw [runStatements_append, List.foldl_cons, List.foldl_nil, add_statement_eq]
      simp [ih]

theorem runStatements_tsv_length (stmts : List (String × String × String)) :
    (runStatements stmts).2.stmt_tsv_rows.length = stmts.length := by
  induction stmts using List.reverseRecOn with
  | nil => rfl
  | append_singleton l a ih =>
      rw [runStatements_append, List.foldl_cons, List.foldl_nil, add_statement_eq]
      simp [ih]

theorem rowMatches_add_statement {im : IndexManagerState}
    {s : String × String × String} {r : Nat × Nat × Nat}
    (sw : StatementWriterState) (stmt : String × String × String)
    (h : RowMatches im s r) :
    RowMatches (add_statement (im, sw) stmt).1 s r :=
  ⟨get_index_add_statement_of_some sw stmt h.1,
   get_index_add_statement_of_some sw stmt h.2.1,
   get_index_add_statement_of_some sw stmt h.2.2⟩

theorem runStatements_rowMatches (stmts : List (String × String × String)) :
    List.Forall₂ (RowMatches (runStatements stmts).1) stmts
      (runStatements stmts).2.stmt_tsv_rows := by
  induction stmts using List.reverseRecOn with
  | nil => exact List.Forall₂.nil
  | append_singleton l a ih =>
      have hrun : runStatements (l ++ [a]) = add_statement (runStatements l) a := by
        rw [runStatements_append, List.foldl_cons, List.foldl_nil]
      rw [hrun]
      rcases hr : runStatements l with ⟨im, sw⟩
      rw [hr] at ih
      have hlift : List.Forall₂ (RowMatches (add_statement (im, sw) a).1) l
          sw.stmt_tsv_rows :=
        ih.imp fun s r hm => rowMatches_add_statement sw a hm
      have hnew : RowMatches (add_statement (im, sw) a).1 a
          ((add_entry_and_get_index im a.1 true).2,
           (add_entry_and_get_index
             (add_entry_and_get_index im a.1 true).1 a.2.1 false).2,
           (add_entry_and_get_index
             (add_entry_and_get_index
               (add_entry_and_get_index im a.1 true).1 a.2.1 false).1
             a.2.2 true).2) := by
        rw [add_statement_eq]
        refine ⟨?_, ?_, ?_⟩
        · exact get_index_add_of_some _ _ (get_index_add_of_some _ _
            (get_index_after_add im a.1 true))
        · exact get_index_add_of_some _ _
            (get_index_after_add (add_entry_and_get_index im a.1 true).1 a.2.1 false)
        · exact get_index_after_add _ a.2.2 true
      have hall := List.rel_append hlift
        (List.Forall₂.cons hnew List.Forall₂.nil)
      rw [add_statement_eq] at hall ⊢
      exact hall

/-!
## Lemmas about the paged statement fetcher
-/

theorem queryPage_eq_nil {α : Type} {src : List α} {skip : Nat}
    (h : src.length ≤ skip) : queryPage src skip = [] := by
  rw [queryPage, List.drop_eq_nil_of_le h, List.take_nil]

theorem queryPage_ne_nil {α : Type} {src : List α} {skip : Nat}
    (h : skip < src.length) : queryPage src skip ≠ [] := by
  rw [queryPage, Ne, List.take_eq_nil_iff]
  rintro (hL | hd)
  · exact absurd hL (by decide)
  · rw [List.drop_eq_nil_iff] at hd
    omega

theorem fetchPagesAux_flatten {α : Type} (src : List α) (skip : Nat) :
    (fetchPagesAux src skip).flatten = src.drop skip := by
  by_cases hlt : skip < src.length
  · rw [fetchPagesAux]
    have hne : ¬ (queryPage src skip).head?.isNone = true := by
      simp only [Option.isNone_iff_eq_none, List.head?_eq_none_iff]
      exact queryPage_ne_nil hlt
    rw [dif_neg hne, List.flatten_cons,
      fetchPagesAux_flatten src (skip + LOAD_LIMIT)]
    rw [queryPage, ← List.drop_drop, List.take_append_drop]
  · rw [fetchPagesAux]
    have hle : src.length ≤ skip := Nat.le_of_not_lt hlt
    have he : (queryPage src skip).head?.isNone = true := by
      rw [queryPage_eq_nil hle]
      rfl
    rw [dif_pos he, List.flatten_nil, List.drop_eq_nil_of_le hle]
termination_by src.length - skip
decreasing_by
  have hL : 0 < LOAD_LIMIT := by decide
  omega

/-- A generic list fact used below: the element right after a prefix. -/
theorem getElem?_append_cons {α : Type} (l₁ : List α) (x : α) (l₂ : List α) :
    (l₁ ++ x :: l₂)[l₁.length]? = some x := by
  induction l₁ with
  | nil => simp
  | cons a t ih => simpa using ih

/-!
## Claim theorems
-/

/-- C1: For every sequence of calls to the Entity Index's resolve
operation (`add_entry_and_get_index`), a given URI always returns the
same integer id (a later resolve of `u` returns what the first resolve of
`u` returned, whatever relevance flags are passed), and after `k`
distinct URIs have been resolved the set of assigned ids is exactly
`0..k-1`, assigned in first-sight order with no gaps (the index rows are
numbered `0, 1, 2, …` and list the distinct URIs in first-sight
order). -/
theorem resolve_ids_stable_and_dense (cs : List (String × Bool)) :
    (∀ (cs' : List (String × Bool)) (u : String) (r r' : Bool),
        (add_entry_and_get_index (runCalls ((cs ++ [(u, r)]) ++ cs')) u r').2
          = (add_entry_and_get_index (runCalls cs) u r).2)
  ∧ (∀ i : Nat, (∃ u, get_index (runCalls cs) u = some i) ↔ i < distinctCount cs)
  ∧ (runCalls cs).index_rows.map Prod.fst = List.range (distinctCount cs)
  ∧ (runCalls cs).index_rows.map Prod.snd = seenUris cs := by
  refine ⟨?_, ?_, ?_, ?_⟩
  · intro cs' u r r'
    have h1 : get_index (runCalls (cs ++ [(u, r)])) u
        = some ((add_entry_and_get_index (runCalls cs) u r).2) := by
      rw [runCalls_append, List.foldl_cons, List.foldl_nil]
      exact get_index_after_add (runCalls cs) u r
    have h2 : get_index (runCalls ((cs ++ [(u, r)]) ++ cs')) u
        = some ((add_entry_and_get_index (runCalls cs) u r).2) := by
      rw [runCalls_append]
      exact get_index_foldl_of_some cs' h1
    rw [add_of_get_index_some r' h2]
  · intro i
    constructor
    · rintro ⟨u, hu⟩
      rw [get_index_runCalls] at hu
      exact firstIdx_lt_length hu
    · intro hi
      have hnd := seenUris_nodup cs
      refine ⟨(seenUris cs)[i], ?_⟩
      rw [get_index_runCalls]
      exact firstIdx_getElem_of_nodup hnd i hi
  · have h := (indexAbs_runCalls cs).2.2.1
    rw [h]
    show (idxRows 0 (seenUris cs)).map Prod.fst = _
    rw [idxRows_map_fst, distinctCount, ← List.range_eq_range']
  · have h := (indexAbs_runCalls cs).2.2.1
    rw [h]
    show (idxRows 0 (seenUris cs)).map Prod.snd = _
    exact idxRows_map_snd 0 (seenUris cs)

theorem resolve_ids_stable_and_dense_witness :
    (add_entry_and_get_index
        (runCalls (([("a", true)] ++ [("b", false)]) ++ [("a", true)])) "b" true).2
      = (add_entry_and_get_index (runCalls [("a", true)]) "b" false).2 :=
  (resolve_ids_stable_and_dense [("a", true)]).1 [("a", true)] "b" false true

/-- C2: whether a URI appears in the relevant-entities output is decided
solely by the `relevant` flag of its first resolve call: a URI first
resolved with `relevant = false` and later resolved (any number of times,
including with `relevant = true`) never has its id in the
relevant-entities rows; and a repeat resolution performs no write at all
(the state is returned unchanged). -/
theorem relevance_fixed_at_first_sight
    (cs₁ cs₂ cs₃ : List (String × Bool)) (u : String) (i : Nat)
    (hfresh : u ∉ cs₁.map Prod.fst)
    (hid : get_index (runCalls (cs₁ ++ (u, false) :: cs₂ ++ (u, true) :: cs₃)) u
        = some i) :
    i ∉ (runCalls (cs₁ ++ (u, false) :: cs₂ ++ (u, true) :: cs₃)).rev_entities_rows
  ∧ ∀ (st : IndexManagerState) (v : String) (r : Bool) (j : Nat),
      get_index st v = some j → add_entry_and_get_index st v r = (st, j) := by
  have hkey1 : u ∉ (fsr cs₁).map Prod.fst := by
    intro hm
    exact hfresh ((mem_seenUris_iff cs₁ u).mp hm)
  have hdec : ∃ t, fsr (cs₁ ++ (u, false) :: cs₂ ++ (u, true) :: cs₃)
      = fsr cs₁ ++ (u, false) :: t := by
    have hsplit : cs₁ ++ (u, false) :: cs₂ ++ (u, true) :: cs₃
        = (cs₁ ++ [(u, false)]) ++ (cs₂ ++ (u, true) :: cs₃) := by simp
    rw [hsplit, fsr_append]
    have h1 : fsr (cs₁ ++ [(u, false)]) = fsr cs₁ ++ [(u, false)] := by
      rw [fsr_append, List.foldl_cons, List.foldl_nil]
      simp [fsrStep, hkey1]
    rw [h1]
    rcases foldl_fsrStep_extend (cs₂ ++ (u, true) :: cs₃)
      (fsr cs₁ ++ [(u, false)]) with ⟨t, ht⟩
    exact ⟨t, by rw [ht]; simp⟩
  obtain ⟨t, hdect⟩ := hdec
  have hkeys : seenUris (cs₁ ++ (u, false) :: cs₂ ++ (u, true) :: cs₃)
      = (fsr cs₁).map Prod.fst ++ u :: t.map Prod.fst := by
    rw [seenUris, hdect]
    simp
  have hfi : firstIdx (seenUris (cs₁ ++ (u, false) :: cs₂ ++ (u, true) :: cs₃)) u
      = some ((fsr cs₁).map Prod.fst).length := by
    rw [hkeys]
    exact firstIdx_middle _ hkey1
  have hieq : i = (fsr cs₁).length := by
    have h2 := (get_index_runCalls (cs₁ ++ (u, false) :: cs₂ ++ (u, true) :: cs₃) u).symm.trans hid
    rw [hfi] at h2
    have := Option.some.inj h2
    simpa using this.symm
  constructor
  · intro hmem
    have hrev := (indexAbs_runCalls (cs₁ ++ (u, false) :: cs₂ ++ (u, true) :: cs₃)).2.2.2
    rw [hrev] at hmem
    obtain ⟨j, c, hget, hc2, hij⟩ := exists_of_mem_revRows hmem
    have hji : j = i := by omega
    have hat : (fsr (cs₁ ++ (u, false) :: cs₂ ++ (u, true) :: cs₃))[i]?
        = some (u, false) := by
      rw [hdect, hieq]
      exact getElem?_append_cons (fsr cs₁) (u, false) t
    rw [hji, hat] at hget
    have hcc := Option.some.inj hget
    rw [← hcc] at hc2
    exact Bool.noConfusion hc2
  · intro st v r j h
    exact add_of_get_index_some r h

theorem relevance_fixed_at_first_sight_witness :
    0 ∉ (runCalls ([] ++ ("u", false) :: [] ++ ("u", true) :: [])).rev_entities_rows :=
  (relevance_fixed_at_first_sight [] [] [] "u" 0 (by simp) (by decide)).1

/-- C9: querying the Entity Index (`get_index`) for a URI that was never
resolved returns the explicit not-found value `none` rather than a
default id or an exception, and returns the assigned id (`some i`) for
every previously resolved URI. -/
theorem get_index_not_found_signal (cs : List (String × Bool)) (u : String) :
    (u ∉ cs.map Prod.fst → get_index (runCalls cs) u = none)
  ∧ (u ∈ cs.map Prod.fst → ∃ i, get_index (runCalls cs) u = some i) := by
  constructor
  · intro h
    rw [get_index_runCalls]
    exact (firstIdx_eq_none_iff _ _).mpr
      (fun hm => h ((mem_seenUris_iff cs u).mp hm))
  · intro h
    rw [get_index_runCalls]
    cases hfi : firstIdx (seenUris cs) u with
    | none =>
        have := (firstIdx_eq_none_iff _ _).mp hfi
        exact absurd ((mem_seenUris_iff cs u).mpr h) this
    | some i => exact ⟨i, rfl⟩

theorem get_index_not_found_signal_witness :
    get_index (runCalls [("a", true)]) "b" = none :=
  (get_index_not_found_signal [("a", true)] "b").1 (by decide)

/-- C7: `write_label` for a given entity has an effect at most once per
run: the first call for an entity appends exactly one label record, and
every subsequent call for the same entity — with any (possibly different)
content — returns the state unchanged (the first written content stays in
place) and raises no error. -/
theorem write_label_effect_at_most_once (im : IndexManagerState)
    (lw : LabelWriterState) (uri l₁ d₁ : String) (i : Nat)
    (hix : get_index im uri = some i)
    (hnew : lw.labelled_set.contains i = false) :
    write_label im lw uri l₁ d₁ = .ok (labelledAfter lw i l₁ d₁)
  ∧ (labelledAfter lw i l₁ d₁).label_rows = lw.label_rows ++ [(i, l₁, d₁)]
  ∧ ∀ l₂ d₂ : String,
      write_label im (labelledAfter lw i l₁ d₁) uri l₂ d₂
        = .ok (labelledAfter lw i l₁ d₁) := by
  have hnew' : i ∉ lw.labelled_set := by simpa using hnew
  refine ⟨?_, rfl, ?_⟩
  · simp [write_label, hix, hnew', labelledAfter]
  · intro l₂ d₂
    simp [write_label, hix, labelledAfter]

theorem write_label_effect_at_most_once_witness :
    write_label (runCalls [("e", true)]) initLabelWriter "e" "lab" "desc"
      = .ok (labelledAfter initLabelWriter 0 "lab" "desc") :=
  (write_label_effect_at_most_once (runCalls [("e", true)]) initLabelWriter
    "e" "lab" "desc" 0 (by decide) (by decide)).1

/-- C10: the Label Store's public operations are keyed by URI and are
partial: for every URI not previously resolved through the Entity Index,
both `is_present` and `write_label` raise `ValueError` instead of
returning false or silently ignoring the call; for a previously resolved
URI, neither raises. -/
theorem label_ops_require_indexed_uri (cs : List (String × Bool))
    (lw : LabelWriterState) (uri label description : String) :
    (uri ∉ cs.map Prod.fst →
       is_present (runCalls cs) lw uri = .error "ValueError: entity was not indexed"
       ∧ write_label (runCalls cs) lw uri label description
           = .error "ValueError: entity was not indexed")
  ∧ (uri ∈ cs.map Prod.fst →
       (∃ b, is_present (runCalls cs) lw uri = .ok b)
       ∧ ∃ lw', write_label (runCalls cs) lw uri label description = .ok lw') := by
  constructor
  · intro h
    have hnone : get_index (runCalls cs) uri = none := by
      rw [get_index_runCalls]
      exact (firstIdx_eq_none_iff _ _).mpr
        (fun hm => h ((mem_seenUris_iff cs uri).mp hm))
    exact ⟨by simp [is_present, hnone], by simp [write_label, hnone]⟩
  · intro h
    have hsome : ∃ i, get_index (runCalls cs) uri = some i := by
      rw [get_index_runCalls]
      cases hfi : firstIdx (seenUris cs) uri with
      | none =>
          have := (firstIdx_eq_none_iff _ _).mp hfi
          exact absurd ((mem_seenUris_iff cs uri).mpr h) this
      | some i => exact ⟨i, rfl⟩
    obtain ⟨i, hi⟩ := hsome
    refine ⟨⟨lw.labelled_set.contains i, by simp [is_present, hi]⟩, ?_⟩
    by_cases hc : i ∈ lw.labelled_set
    · exact ⟨lw, by simp [write_label, hi, hc]⟩
    · exact ⟨labelledAfter lw i label description,
        by simp [write_label, hi, hc, labelledAfter]⟩

theorem label_ops_require_indexed_uri_witness :
    is_present (runCalls []) initLabelWriter "x"
        = .error "ValueError: entity was not indexed"
    ∧ write_label (runCalls []) initLabelWriter "x" "l" "d"
        = .error "ValueError: entity was not indexed" :=
  (label_ops_require_indexed_uri [] initLabelWriter "x" "l" "d").1 (by simp)

/-- C4: for every input sequence of statements, the statement index table
and the triple-syntax table contain the same number of rows in the same
order: each write appends exactly one row to each, after any prefix of
writes the two row counts are equal, line `i` of the N-Triples table is
the serialisation of input statement `i`, and row `i` of the TSV table
holds exactly the ids the three URIs of input statement `i` resolve
to. -/
theorem statement_tables_lockstep (stmts : List (String × String × String)) :
    (runStatements stmts).2.stmt_tsv_rows.length = stmts.length
  ∧ (runStatements stmts).2.stmt_rdf_lines = stmts.map ntripleLine
  ∧ (∀ k : Nat, (runStatements (stmts.take k)).2.stmt_tsv_rows.length
      = (runStatements (stmts.take k)).2.stmt_rdf_lines.length)
  ∧ List.Forall₂ (RowMatches (runStatements stmts).1) stmts
      (runStatements stmts).2.stmt_tsv_rows := by
  refine ⟨runStatements_tsv_length stmts, runStatements_rdf_lines stmts, ?_,
    runStatements_rowMatches stmts⟩
  intro k
  rw [runStatements_tsv_length, runStatements_rdf_lines, List.length_map]

theorem statement_tables_lockstep_witness :
    (runStatements [("A", "P", "B"), ("C", "P", "A")]).2.stmt_tsv_rows.length
      = [("A", "P", "B"), ("C", "P", "A")].length :=
  (statement_tables_lockstep [("A", "P", "B"), ("C", "P", "A")]).1

/-- C5: the paged statement fetcher, given a source of 1,500,000 rows and
the page size `LOAD_LIMIT = 1,000,000`, yields exactly two pages
(1,000,000 rows, then 500,000 rows) concatenated in source order with no
row duplicated and no row dropped, and the probe after advancing `skip`
twice by the page size returns no rows (which terminates the loop). -/
theorem paged_fetch_two_pages (src : List (String × String × String))
    (h : src.length = 1500000) :
    fetchPagesAux src 0 = [src.take LOAD_LIMIT, src.drop LOAD_LIMIT]
  ∧ (src.take LOAD_LIMIT).length = 1000000
  ∧ (src.drop LOAD_LIMIT).length = 500000
  ∧ fetch_statements src = src
  ∧ queryPage src (LOAD_LIMIT + LOAD_LIMIT) = [] := by
  have hL : LOAD_LIMIT = 1000000 := rfl
  have h2 : queryPage src (LOAD_LIMIT + LOAD_LIMIT) = [] := by
    apply queryPage_eq_nil
    omega
  refine ⟨?_, by simp [h, hL], by simp [h, hL], ?_, h2⟩
  · have hne0 : ¬ (queryPage src 0).head?.isNone = true := by
      simp only [Option.isNone_iff_eq_none, List.head?_eq_none_iff]
      apply queryPage_ne_nil
      omega
    have hne1 : ¬ (queryPage src (0 + LOAD_LIMIT)).head?.isNone = true := by
      simp only [Option.isNone_iff_eq_none, List.head?_eq_none_iff]
      apply queryPage_ne_nil
      omega
    have hstop : (queryPage src (0 + LOAD_LIMIT + LOAD_LIMIT)).head?.isNone = true := by
      have : queryPage src (0 + LOAD_LIMIT + LOAD_LIMIT) = [] := by
        apply queryPage_eq_nil
        omega
      rw [this]
      rfl
    rw [fetchPagesAux, dif_neg hne0, fetchPagesAux, dif_neg hne1,
      fetchPagesAux, dif_pos hstop]
    have hq0 : queryPage src 0 = src.take LOAD_LIMIT := by
      simp [queryPage]
    have hq1 : queryPage src (0 + LOAD_LIMIT) = src.drop LOAD_LIMIT := by
      rw [Nat.zero_add, queryPage]
      apply List.take_of_length_le
      simp [h, hL]
    rw [hq0, hq1]
  · rw [fetch_statements, fetchPagesAux_flatten, List.drop_zero]

theorem paged_fetch_two_pages_witness :
    fetch_statements (List.replicate 1500000 ("s", "p", "o"))
      = List.replicate 1500000 ("s", "p", "o") :=
  (paged_fetch_two_pages (List.replicate 1500000 ("s", "p", "o"))
    (List.length_replicate 1500000 ("s", "p", "o"))).2.2.2.1

/-- C6: for the input statement sequence `[(A, P, B), (C, P, A)]` with
four pairwise distinct URIs and an empty initial index, the run produces
index rows `(0, A), (1, P), (2, B), (3, C)` in that order (so within one
statement the subject is resolved before the predicate, which is resolved
before the object), relevant-entities rows exactly `[0, 2, 3]` (P's id 1
absent), and statement index rows `(0, 1, 2)` followed by `(3, 1, 0)`. -/
theorem end_to_end_two_statements (A P B C : String)
    (hAP : A ≠ P) (hAB : A ≠ B) (hAC : A ≠ C)
    (hPB : P ≠ B) (hPC : P ≠ C) (hBC : B ≠ C) :
    (runStatements [(A, P, B), (C, P, A)]).1.index_rows
        = [(0, A), (1, P), (2, B), (3, C)]
  ∧ (runStatements [(A, P, B), (C, P, A)]).1.rev_entities_rows = [0, 2, 3]
  ∧ (runStatements [(A, P, B), (C, P, A)]).2.stmt_tsv_rows
        = [(0, 1, 2), (3, 1, 0)] := by
  refine ⟨?_, ?_, ?_⟩ <;>
    simp [runStatements, add_statement, add_entry_and_get_index, lookupUri,
      initIndexManager, initStatementWriter, hAP, hAB, hAC, hPB, hPC, hBC,
      Ne.symm hAP, Ne.symm hAB, Ne.symm hAC, Ne.symm hPB, Ne.symm hPC,
      Ne.symm hBC]

theorem end_to_end_two_statements_witness :
    (runStatements [("A", "P", "B"), ("C", "P", "A")]).1.index_rows
        = [(0, "A"), (1, "P"), (2, "B"), (3, "C")]
  ∧ (runStatements [("A", "P", "B"), ("C", "P", "A")]).1.rev_entities_rows
        = [0, 2, 3]
  ∧ (runStatements [("A", "P", "B"), ("C", "P", "A")]).2.stmt_tsv_rows
        = [(0, 1, 2), (3, 1, 0)] :=
  end_to_end_two_statements "A" "P" "B" "C" (by decide) (by decide) (by decide)
    (by decide) (by decide) (by decide)

/-- C3 (code bug): at the end of a run, `StatementWriterFileIO.__exit__`
closes its two statement streams and `IndexManagerFileIO.__exit__` flushes
and closes the entity-index and relevant-entities streams, but the index
labels stream (`_index_label_w`) is never flushed or closed: of the five
streams the label stream is left open, contradicting the claim that all
five are released as a single unit on every exit path. -/
theorem run_exit_leaves_label_stream_open :
    runExitStreams openAllStreams
      = { ent_index_open := false, index_label_open := true,
          rev_ent_open := false, stmt_rdf_open := false,
          stmt_tsv_open := false }
  ∧ (runExitStreams openAllStreams).index_label_open = true := ⟨rfl, rfl⟩

/-- C8 (counterexample): for an indexed, not-yet-labelled entity whose
label lookup produces no row, the driver's label step raises (the missing
record is subscripted) instead of recording "entity has no label" in the
Label Store: the run fails and nothing is written. -/
theorem label_lookup_no_row_counterexample :
    driver_label_step (runCalls [("e", true)]) initExtLabelWriter "e" []
      = .error "TypeError: NoneType object is not subscriptable" := rfl

/-- C8 (amended): whenever the label lookup for an indexed,
not-yet-labelled entity produces no row, `fetch_label` raises and the
driver's label step propagates the error — the run fails and no "no
label" outcome is recorded in the Label Store. -/
theorem label_lookup_no_row_raises (im : IndexManagerState)
    (lw : ExtLabelWriterState) (ent : String) (i : Nat)
    (hix : get_index im ent = some i)
    (hnew : lw.labelled_set.contains i = false) :
    driver_label_step im lw ent []
      = .error "TypeError: NoneType object is not subscriptable" := by
  have hnew' : i ∉ lw.labelled_set := by simpa using hnew
  simp [driver_label_step, ext_is_present, hix, hnew', fetch_label]

theorem label_lookup_no_row_raises_witness :
    driver_label_step (runCalls [("f", true)]) initExtLabelWriter "f" []
      = .error "TypeError: NoneType object is not subscriptable" :=
  label_lookup_no_row_raises (runCalls [("f", true)]) initExtLabelWriter "f" 0
    (by decide) (by decide)

end DbpediaExtractor
